import Mathlib

/-! URL shortener (`main.go`): shallow embedding and verified properties.

The Go program keeps one process-wide `store` (a `map[string]string` behind a
`sync.RWMutex`), generates random six-character codes with `crypto/rand`, and
serves two gin handlers, `ShortenURL` and `RetrieveURL`.

Modelling decisions.

* The handlers act on an explicit `World` (the store and the number of
  `rand.Int` calls made so far).  `ShortenURL` and `RetrieveURL` are the
  handlers run from start to end with no other handler in between.  The mutex
  operations do not change the data; what they delimit are the critical
  sections, and `Handler.step` / `runSchedule` run `ShortenURL` handlers
  concurrently, switching between them at the boundaries of these sections.
* `rand.Reader` is a sequence of outcomes of `rand.Int(rand.Reader, 62)`:
  the `n`-th call returns `rd n`, a number or an error.
* The retry loop of `ShortenURL` is unbounded; it is run with a fuel argument
  that counts calls of `GenerateShortCode`; `none` means the fuel ran out.
* A Go panic (index out of range, `make` length out of range) is an outcome of its
  own; inside a handler gin recovers it, and the store is as the handler left
  it.
* Go strings that reach the program are UTF-8 text; they are Lean strings, and
  every byte test of `net/url` used here only distinguishes ASCII bytes, so it
  is performed on characters.
* `url.ParseRequestURI` belongs to the Go standard library (`net/url/url.go`);
  `parse`, `getScheme`, `parseAuthority`, `parseHost`, `unescape`,
  `shouldEscape`, `validUserinfo` and `validOptionalPort` follow its text (Go
  1.21) and compute the returned error only, since `ShortenURL` discards the
  parsed `*URL`.
-/

namespace UrlShortener

/-! ## Storage -/

/-- The `data` field of `Storage` (`map[string]string`); keys are kept distinct by `put`. -/
structure Storage where
  data : List (String × String)
deriving DecidableEq, Repr

/-- The initial value of the global `store`: `make(map[string]string)`. -/
def Storage.empty : Storage := ⟨[]⟩

/-- The comma-ok read `val, ok := store.data[code]`. -/
def Storage.get (s : Storage) (code : String) : String × Bool :=
  match s.data.lookup code with
  | some v => (v, true)
  | none => ("", false)

/-- The membership test `_, exists := store.data[code]`. -/
def Storage.has (s : Storage) (code : String) : Bool := (s.get code).2

/-- The assignment `store.data[code] = url`. -/
def Storage.put (s : Storage) (code url : String) : Storage :=
  ⟨(code, url) :: s.data.filter (fun p => p.1 != code)⟩

/-! ## Random source and `GenerateShortCode` -/

/-- Outcome of one call `rand.Int(rand.Reader, big.NewInt(62))`. -/
inductive Draw where
  | num (n : Nat)
  | err (e : String)
deriving DecidableEq, Repr

/-- The random source: the outcome of the `n`-th call of `rand.Int`. -/
abbrev Reader := Nat → Draw

/-- What a call of `GenerateShortCode` does: return `(code, err)` or panic. -/
inductive Gen where
  | ret (code : String) (err : Option String)
  | panic
deriving DecidableEq, Repr

def charset : String := "abcdefghijklmnopqrstuvwxyzABCDEFGHIJKLMNOPQRSTUVWXYZ0123456789"

/-- The body of `for i := range code`: `n` iterations are left, `code` holds the bytes
written so far, `pos` counts the draws made.  `num.Int64()` keeps the low 64 bits, and an
index outside the charset (negative or at least 62) panics. -/
def fillCode (rd : Reader) : Nat → Nat → List Char → Gen × Nat
  | 0, pos, code => (Gen.ret (String.mk code) none, pos)
  | n + 1, pos, code =>
    match rd pos with
    | Draw.err e => (Gen.ret "" (some e), pos + 1)
    | Draw.num k =>
      match charset.data[k % 2 ^ 64]? with
      | none => (Gen.panic, pos + 1)
      | some c => fillCode rd n (pos + 1) (code ++ [c])

/-- The largest size in bytes that the Go runtime allocates, `runtime.maxAlloc`, on a
64-bit platform (48 address bits).  `makeslice` panics with `len out of range` when the
length of a byte slice is negative or exceeds it. -/
def maxAlloc : Nat := 2 ^ 48

/-- `GenerateShortCode(length)`, started when `pos` draws have been made; returns the
outcome and the new number of draws.  `length` is a Go `int`; `make([]byte, length)`
panics, before any draw, on a negative length and on a length above `maxAlloc` (every
value that is not a 64-bit `int` is above it). -/
def GenerateShortCode (rd : Reader) (pos : Nat) (length : Int) : Gen × Nat :=
  if length < 0 ∨ (maxAlloc : Int) < length then (Gen.panic, pos)
  else fillCode rd length.toNat pos []

/-! ## `net/url`: `ParseRequestURI` -/

def inRange (lo hi c : Char) : Bool := decide (lo.toNat ≤ c.toNat) && decide (c.toNat ≤ hi.toNat)

/-- `stringContainsCTLByte`. -/
def stringContainsCTLByte (s : List Char) : Bool :=
  s.any (fun b => decide (b.toNat < 32) || b.toNat == 127)

/-- The loop of `getScheme`; `pre` is `rawURL[:i]`, the second list is `rawURL[i:]`.
Returns `(scheme, path)` or the error. -/
def getSchemeLoop (rawURL : List Char) : List Char → List Char → Except String (List Char × List Char)
  | _, [] => Except.ok ([], rawURL)
  | pre, c :: cs =>
    if inRange 'a' 'z' c || inRange 'A' 'Z' c then getSchemeLoop rawURL (pre ++ [c]) cs
    else if inRange '0' '9' c || c == '+' || c == '-' || c == '.' then
      if pre.isEmpty then Except.ok ([], rawURL) else getSchemeLoop rawURL (pre ++ [c]) cs
    else if c == ':' then
      if pre.isEmpty then Except.error "missing protocol scheme" else Except.ok (pre, cs)
    else Except.ok ([], rawURL)

/-- `getScheme`. -/
def getScheme (rawURL : List Char) : Except String (List Char × List Char) :=
  getSchemeLoop rawURL [] rawURL

/-- `strings.LastIndex(s, string(c))`. -/
def lastIndex (s : List Char) (c : Char) : Option Nat :=
  let i := s.reverse.indexOf c
  if i < s.length then some (s.length - 1 - i) else none

/-- `strings.Index(s, pat)`. -/
def index (pat : List Char) : List Char → Option Nat
  | [] => if pat.isEmpty then some 0 else none
  | c :: cs => if pat.isPrefixOf (c :: cs) then some 0 else (index pat cs).map (· + 1)

/-- `strings.Cut(s, string(sep))` without the `found` flag: the text before and after the
first `sep`; all of `s` and the empty string when there is none. -/
def cut (s : List Char) (sep : Char) : List Char × List Char :=
  (s.takeWhile (· != sep), (s.dropWhile (· != sep)).drop 1)

/-- The escaping modes of `net/url`. -/
inductive encoding where
  | encodePath
  | encodePathSegment
  | encodeHost
  | encodeZone
  | encodeUserPassword
  | encodeQueryComponent
  | encodeFragment
deriving DecidableEq, Repr

open encoding

def ishex (c : Char) : Bool := inRange '0' '9' c || inRange 'a' 'f' c || inRange 'A' 'F' c

def unhex (c : Char) : Nat :=
  if inRange '0' '9' c then c.toNat - '0'.toNat
  else if inRange 'a' 'f' c then c.toNat - 'a'.toNat + 10
  else if inRange 'A' 'F' c then c.toNat - 'A'.toNat + 10
  else 0

/-- `shouldEscape(c, mode)`. -/
def shouldEscape (c : Char) (mode : encoding) : Bool :=
  if inRange 'a' 'z' c || inRange 'A' 'Z' c || inRange '0' '9' c then false
  else if (mode == encodeHost || mode == encodeZone) &&
      ['!', '$', '&', '\'', '(', ')', '*', '+', ',', ';', '=', ':', '[', ']', '<', '>', '"'].contains c
    then false
  else if ['-', '_', '.', '~'].contains c then false
  else if ['$', '&', '+', ',', '/', ':', ';', '=', '?', '@'].contains c &&
      (mode == encodePath || mode == encodePathSegment || mode == encodeUserPassword ||
        mode == encodeQueryComponent || mode == encodeFragment) then
    match mode with
    | encodePath => c == '?'
    | encodePathSegment => c == '/' || c == ';' || c == ',' || c == '?'
    | encodeUserPassword => c == '@' || c == '/' || c == '?' || c == ':'
    | encodeQueryComponent => true
    | _ => false
  else if mode == encodeFragment && ['!', '(', ')', '*'].contains c then false
  else true

/-- The first loop of `unescape(s, mode)`, which decides whether it returns an error:
`none` when it does not, otherwise the error. -/
def unescape (mode : encoding) : List Char → Option String
  | [] => none
  | [c] =>
    if c == '%' then some "invalid URL escape"
    else if c == '+' then none
    else if (mode == encodeHost || mode == encodeZone) && decide (c.toNat < 128) && shouldEscape c mode
      then some "invalid character in host name"
    else none
  | c :: a :: rest =>
    if c == '%' then
      match rest with
      | [] => some "invalid URL escape"
      | b :: rest2 =>
        if !ishex a || !ishex b then some "invalid URL escape"
        else if mode == encodeHost && decide (unhex a < 8) && [c, a, b] != ['%', '2', '5'] then
          some "invalid URL escape"
        else if mode == encodeZone && [c, a, b] != ['%', '2', '5'] && unhex a * 16 + unhex b != 32 &&
            shouldEscape (Char.ofNat (unhex a * 16 + unhex b)) encodeHost then
          some "invalid URL escape"
        else unescape mode rest2
    else if c == '+' then unescape mode (a :: rest)
    else if (mode == encodeHost || mode == encodeZone) && decide (c.toNat < 128) && shouldEscape c mode
      then some "invalid character in host name"
    else unescape mode (a :: rest)

/-- `validOptionalPort`. -/
def validOptionalPort : List Char → Bool
  | [] => true
  | c :: digits => c == ':' && digits.all (fun b => !(decide (b.toNat < '0'.toNat) || decide (b.toNat > '9'.toNat)))

/-- `validUserinfo`. -/
def validUserinfo (s : List Char) : Bool :=
  s.all (fun r => inRange 'A' 'Z' r || inRange 'a' 'z' r || inRange '0' '9' r ||
    ['-', '.', '_', ':', '~', '!', '$', '&', '\'', '(', ')', '*', '+', ',', ';', '=', '%', '@'].contains r)

/-- `parseHost`: the error it returns, if any. -/
def parseHost (host : List Char) : Option String :=
  if ['['].isPrefixOf host then
    match lastIndex host ']' with
    | none => some "missing ']' in host"
    | some i =>
      if !validOptionalPort (host.drop (i + 1)) then some "invalid port after host"
      else
        match index ['%', '2', '5'] (host.take i) with
        | some zone =>
          (unescape encodeHost (host.take zone)).orElse fun _ =>
          (unescape encodeZone ((host.take i).drop zone)).orElse fun _ =>
          unescape encodeHost (host.drop i)
        | none => unescape encodeHost host
  else
    match lastIndex host ':' with
    | some i =>
      if !validOptionalPort (host.drop i) then some "invalid port after host"
      else unescape encodeHost host
    | none => unescape encodeHost host

/-- `parseAuthority`: the error it returns, if any. -/
def parseAuthority (authority : List Char) : Option String :=
  match lastIndex authority '@' with
  | none => parseHost authority
  | some i =>
    (parseHost (authority.drop (i + 1))).orElse fun _ =>
    let userinfo := authority.take i
    if !validUserinfo userinfo then some "net/url: invalid userinfo"
    else if !userinfo.contains ':' then unescape encodeUserPassword userinfo
    else
      (unescape encodeUserPassword (cut userinfo ':').1).orElse fun _ =>
      unescape encodeUserPassword (cut userinfo ':').2

/-- `setPath`: fails exactly when `unescape(p, encodePath)` does. -/
def setPath (p : List Char) : Option String := unescape encodePath p

/-- `parse(rawURL, viaRequest)`: the error it returns, `none` for a nil error.  The `*URL`
it builds is not kept, the caller in this program discards it. -/
def parse (rawURL : List Char) (viaRequest : Bool) : Option String :=
  if stringContainsCTLByte rawURL then some "net/url: invalid control character in URL"
  else if rawURL.isEmpty && viaRequest then some "empty url"
  else if rawURL == ['*'] then none
  else
    match getScheme rawURL with
    | Except.error e => some e
    | Except.ok (scheme, rest0) =>
      let rest :=
        if rest0.getLast? == some '?' && rest0.count '?' == 1 then rest0.dropLast
        else (cut rest0 '?').1
      if !(['/'].isPrefixOf rest) && !scheme.isEmpty then none
      else if !(['/'].isPrefixOf rest) && viaRequest then some "invalid URI for request"
      else if !(['/'].isPrefixOf rest) && (cut rest '/').1.contains ':' then
        some "first path segment in URL cannot contain colon"
      else if (!scheme.isEmpty || !viaRequest && !(['/', '/', '/'].isPrefixOf rest)) &&
          ['/', '/'].isPrefixOf rest then
        let authority := rest.drop 2
        match index ['/'] authority with
        | some i => (parseAuthority (authority.take i)).orElse fun _ => setPath (authority.drop i)
        | none => (parseAuthority authority).orElse fun _ => setPath []
      else setPath rest

/-- `url.ParseRequestURI(rawURL)`: the error it returns, `none` for a nil error. -/
def ParseRequestURI (rawURL : String) : Option String := parse rawURL.data true

/-! ## HTTP handlers -/

/-- What a handler writes to the gin context: `ctx.JSON(status, gin.H{key: value})` or
`ctx.Redirect(status, location)`. -/
inductive Response where
  | json (status : Nat) (key value : String)
  | redirect (status : Nat) (location : String)
deriving DecidableEq, Repr

/-- `RequestBody`. -/
structure RequestBody where
  URL : String
deriving DecidableEq, Repr

/-- The process state the handlers act on: the global `store` and the number of draws
taken from `rand.Reader` so far. -/
structure World where
  store : Storage
  pos : Nat
deriving DecidableEq, Repr

/-- How a handler run ends: it returns after writing `resp`, or it panics. -/
inductive Outcome where
  | done (resp : Response) (w : World)
  | panic (w : World)
deriving DecidableEq, Repr

/-- The loop `for { shortCode, err = GenerateShortCode(6); ... }` of `ShortenURL`.
Each iteration uses one unit of fuel.  `none`: fuel exhausted.  Otherwise the last result
of `GenerateShortCode` (a code absent from the store, an error, or a panic) and the draw
count. -/
def allocLoop (rd : Reader) (store : Storage) : Nat → Nat → Option (Gen × Nat)
  | 0, _ => none
  | fuel + 1, pos =>
    match GenerateShortCode rd pos 6 with
    | (Gen.ret shortCode none, pos1) =>
      if store.has shortCode then allocLoop rd store fuel pos1
      else some (Gen.ret shortCode none, pos1)
    | (g, pos1) => some (g, pos1)

/-- `ShortenURL`.  `bind` is the result of `ctx.BindJSON(&req)`: `none` for an error,
otherwise the decoded body. -/
def ShortenURL (rd : Reader) (fuel : Nat) (w : World) (bind : Option RequestBody) : Option Outcome :=
  match bind with
  | none => some (Outcome.done (Response.json 400 "error" "Invalid request body") w)
  | some req =>
    match ParseRequestURI req.URL with
    | some _ => some (Outcome.done (Response.json 400 "error" "Invalid URL") w)
    | none =>
      match allocLoop rd w.store fuel w.pos with
      | none => none
      | some (Gen.panic, pos1) => some (Outcome.panic ⟨w.store, pos1⟩)
      | some (Gen.ret _ (some _), pos1) =>
        some (Outcome.done (Response.json 500 "error" "Could not generate short code") ⟨w.store, pos1⟩)
      | some (Gen.ret shortCode none, pos1) =>
        some (Outcome.done (Response.json 200 "short_url" ("http://localhost:8080/" ++ shortCode))
          ⟨w.store.put shortCode req.URL, pos1⟩)

/-- `RetrieveURL`; `shortCode` is `ctx.Param("short")`. -/
def RetrieveURL (w : World) (shortCode : String) : Outcome :=
  match w.store.get shortCode with
  | (_, false) => Outcome.done (Response.json 404 "error" "Short URL not found") w
  | (longURL, true) => Outcome.done (Response.redirect 302 longURL) w

/-! ## Start-up -/

/-- `runTests`: `none` when it stops the process (`log.Fatal`, or a panic in the
generator), otherwise the state it leaves behind. -/
def runTests (rd : Reader) (w : World) : Option World :=
  match GenerateShortCode rd w.pos 6 with
  | (Gen.panic, _) => none
  | (Gen.ret code err, pos1) =>
    if err.isSome || code.length != 6 then none
    else
      let store1 := w.store.put "abc123" "https://example.com"
      match store1.get "abc123" with
      | (val, ok) =>
        if !ok || val != "https://example.com" then none
        else some ⟨store1, pos1⟩

/-- The state in which `main` starts serving: the initial `store`, then `runTests`. -/
def main (rd : Reader) : Option World := runTests rd ⟨Storage.empty, 0⟩

/-- A request the router dispatches: `POST /shorten` or `GET /:short`. -/
inductive Request where
  | shorten (bind : Option RequestBody)
  | retrieve (shortCode : String)
deriving DecidableEq, Repr

/-- One request, handled by its handler. -/
def handle (rd : Reader) (fuel : Nat) (w : World) : Request → Option Outcome
  | Request.shorten bind => ShortenURL rd fuel w bind
  | Request.retrieve shortCode => some (RetrieveURL w shortCode)

def Outcome.world : Outcome → World
  | Outcome.done _ w => w
  | Outcome.panic w => w

/-- Requests served one after another, each handler running to its end before the next
one starts (a panic is recovered by gin and the server goes on); the outcomes in order and
the final state, `none` if some request exhausts its fuel.  Handlers that overlap in time
are run by `runSchedule`. -/
def serve (rd : Reader) (fuel : Nat) : World → List Request → Option (List Outcome × World)
  | w, [] => some ([], w)
  | w, r :: rs =>
    match handle rd fuel w r with
    | none => none
    | some o =>
      match serve rd fuel o.world rs with
      | none => none
      | some (os, w1) => some (o :: os, w1)

/-- A reader that always returns the same number. -/
def constReader (k : Nat) : Reader := fun _ => Draw.num k

/-- A sequence of assignments `store.data[code] = url`, applied in order. -/
def Storage.puts (s : Storage) (ops : List (String × String)) : Storage :=
  ops.foldl (fun t p => t.put p.1 p.2) s

/-- A reader that returns 0 on the first `6 * n` draws and 1 afterwards: `n` times the
code "aaaaaa", then "bbbbbb". -/
def stepReader (n : Nat) : Reader := fun p => if p < 6 * n then Draw.num 0 else Draw.num 1

/-- The `short_url` of a successful create response. -/
def Outcome.shortURL : Outcome → Option String
  | Outcome.done (Response.json status key value) _ =>
    if status = 200 ∧ key = "short_url" then some value else none
  | _ => none

/-- Whether `getScheme` finds a scheme in `rawURL` (absolute URI form: `scheme:...`). -/
def hasScheme (rawURL : String) : Bool :=
  match getScheme rawURL.data with
  | Except.ok (scheme, _) => !scheme.isEmpty
  | Except.error _ => false

/-! ## Handlers that run concurrently

gin runs every request in a goroutine of its own.  A `ShortenURL` handler touches the
store in separate critical sections: one `RLock` section per iteration of its loop
(l.68-70) and one `Lock` section for the write (l.77-79).  `Handler` records where a
handler stands between these sections and `Handler.step` runs it to the next such point.
-/

/-- Where a `ShortenURL` handler stands. -/
inductive Handler where
  /-- Called with this `BindJSON` result, nothing executed yet (l.46). -/
  | entry (bind : Option RequestBody)
  /-- The url is validated, the handler is at the head of `for` (l.62). -/
  | looping (url : String)
  /-- The handler left the loop by `break` (l.72) after `RUnlock` and has not yet taken
  the `Lock` of l.77. -/
  | tested (shortCode url : String)
  /-- The handler wrote this response and returned. -/
  | returned (resp : Response)
  /-- The handler panicked. -/
  | panicked
deriving DecidableEq, Repr

/-- One step of a handler on the shared state: binding and validation (l.47-58), one
iteration of the loop (l.63-73), or the write and the response (l.77-82).  A handler that
has returned or panicked stays as it is. -/
def Handler.step (rd : Reader) (w : World) : Handler → Handler × World
  | Handler.entry none => (Handler.returned (Response.json 400 "error" "Invalid request body"), w)
  | Handler.entry (some req) =>
    match ParseRequestURI req.URL with
    | some _ => (Handler.returned (Response.json 400 "error" "Invalid URL"), w)
    | none => (Handler.looping req.URL, w)
  | Handler.looping url =>
    match GenerateShortCode rd w.pos 6 with
    | (Gen.ret shortCode none, pos1) =>
      if w.store.has shortCode then (Handler.looping url, ⟨w.store, pos1⟩)
      else (Handler.tested shortCode url, ⟨w.store, pos1⟩)
    | (Gen.ret _ (some _), pos1) =>
      (Handler.returned (Response.json 500 "error" "Could not generate short code"), ⟨w.store, pos1⟩)
    | (Gen.panic, pos1) => (Handler.panicked, ⟨w.store, pos1⟩)
  | Handler.tested shortCode url =>
    (Handler.returned (Response.json 200 "short_url" ("http://localhost:8080/" ++ shortCode)),
      ⟨w.store.put shortCode url, w.pos⟩)
  | Handler.returned resp => (Handler.returned resp, w)
  | Handler.panicked => (Handler.panicked, w)

/-- A handler stepped `n` times with no other handler running. -/
def stepAlone (rd : Reader) : Nat → Handler × World → Handler × World
  | 0, x => x
  | n + 1, x => stepAlone rd n (x.1.step rd x.2)

/-- The outcome of a handler that has ended. -/
def Handler.outcome : Handler × World → Option Outcome
  | (Handler.returned resp, w) => some (Outcome.done resp w)
  | (Handler.panicked, w) => some (Outcome.panic w)
  | _ => none

/-- Handlers running concurrently: entry `i` of the schedule lets handler `i` take its
next step (an index that names no handler is skipped). -/
def runSchedule (rd : Reader) : World → List Handler → List Nat → World × List Handler
  | w, hs, [] => (w, hs)
  | w, hs, i :: sched =>
    match hs[i]? with
    | none => runSchedule rd w hs sched
    | some h => runSchedule rd (h.step rd w).2 (hs.set i (h.step rd w).1) sched

/-! ## Storage lemmas -/

theorem lookup_filter_ne (l : List (String × String)) (c k : String) (h : k ≠ c) :
    List.lookup k (l.filter (fun p => p.1 != c)) = List.lookup k l := by
  induction l with
  | nil => rfl
  | cons p l ih =>
    obtain ⟨a, b⟩ := p
    by_cases hac : a = c
    · subst hac
      have hka : (k == a) = false := by simpa using h
      simp [List.filter_cons, List.lookup_cons, hka, ih]
    · have hne : (a != c) = true := by simpa using hac
      simp only [List.filter_cons, hne, if_true, List.lookup_cons, ih]

theorem get_put_same (s : Storage) (c u : String) : (s.put c u).get c = (u, true) := by
  simp [Storage.put, Storage.get, List.lookup_cons]

theorem get_put_ne (s : Storage) (c u k : String) (h : k ≠ c) : (s.put c u).get k = s.get k := by
  have hk : (k == c) = false := by simpa using h
  simp only [Storage.put, Storage.get, List.lookup_cons, hk, lookup_filter_ne _ _ _ h]

theorem has_put_same (s : Storage) (c u : String) : (s.put c u).has c = true := by
  simp [Storage.has, get_put_same]

theorem has_put_ne (s : Storage) (c u k : String) (h : k ≠ c) : (s.put c u).has k = s.has k := by
  simp [Storage.has, get_put_ne _ _ _ _ h]

theorem has_of_get (s : Storage) (c u : String) (h : s.get c = (u, true)) : s.has c = true := by
  simp [Storage.has, h]

theorem puts_append (s : Storage) (a b : List (String × String)) :
    s.puts (a ++ b) = (s.puts a).puts b := by
  simp [Storage.puts, List.foldl_append]

theorem puts_cons (s : Storage) (p : String × String) (b : List (String × String)) :
    s.puts (p :: b) = (s.put p.1 p.2).puts b := rfl

theorem get_puts_of_not_mem (ops : List (String × String)) (s : Storage) (k : String)
    (h : ∀ p ∈ ops, p.1 ≠ k) : (s.puts ops).get k = s.get k := by
  induction ops generalizing s with
  | nil => rfl
  | cons p ops ih =>
    rw [puts_cons, ih _ (fun q hq => h q (List.mem_cons_of_mem _ hq))]
    exact get_put_ne _ _ _ _ (fun hk => h p (List.mem_cons_self _ _) hk.symm)

/-! ## Generator lemmas -/

theorem charset_length : charset.data.length = 62 := by decide

theorem charset_alnum : ∀ c ∈ charset.data, c.isAlphanum = true := by decide

theorem fillCode_ok (rd : Reader) (n : Nat) : ∀ (pos : Nat) (acc : List Char),
    (∀ i, i < n → ∃ k, k < 62 ∧ rd (pos + i) = Draw.num k) →
    ∃ cs : List Char, cs.length = n ∧ (∀ c ∈ cs, c ∈ charset.data) ∧
      fillCode rd n pos acc = (Gen.ret (String.mk (acc ++ cs)) none, pos + n) := by
  induction n with
  | zero => intro pos acc _; exact ⟨[], rfl, by simp, by simp [fillCode]⟩
  | succ n ih =>
    intro pos acc h
    obtain ⟨k, hk, hrd⟩ := h 0 (Nat.succ_pos n)
    have hmod : k % 2 ^ 64 = k := Nat.mod_eq_of_lt (by omega)
    have hlt : k < charset.data.length := by rw [charset_length]; exact hk
    obtain ⟨cs, hlen, hmem, hfill⟩ := ih (pos + 1) (acc ++ [charset.data[k]])
      (fun i hi => by
        obtain ⟨k2, hk2, h2⟩ := h (i + 1) (Nat.succ_lt_succ hi)
        exact ⟨k2, hk2, by rw [← h2]; congr 1; omega⟩)
    refine ⟨charset.data[k] :: cs, by simp [hlen], ?_, ?_⟩
    · intro c hc
      rcases List.mem_cons.mp hc with rfl | hc
      · exact List.getElem_mem _
      · exact hmem c hc
    · rw [Nat.add_zero] at hrd
      simp only [fillCode, hrd, hmod, List.getElem?_eq_getElem hlt, hfill]
      simp [Nat.add_assoc, Nat.add_comm 1 n]

theorem fillCode_congr (rd1 rd2 : Reader) (n : Nat) : ∀ (pos : Nat) (acc : List Char),
    (∀ i, i < n → rd1 (pos + i) = rd2 (pos + i)) →
    fillCode rd1 n pos acc = fillCode rd2 n pos acc := by
  induction n with
  | zero => intro pos acc _; rfl
  | succ n ih =>
    intro pos acc h
    have h0 : rd1 pos = rd2 pos := h 0 (Nat.succ_pos n)
    have hstep : ∀ acc2, fillCode rd1 n (pos + 1) acc2 = fillCode rd2 n (pos + 1) acc2 := fun acc2 =>
      ih (pos + 1) acc2 (fun i hi => by
        have := h (i + 1) (Nat.succ_lt_succ hi)
        rwa [show pos + (i + 1) = pos + 1 + i by omega] at this)
    simp only [fillCode, h0]
    split
    · rfl
    · split
      · rfl
      · exact hstep _

/-- A generation that returns without error has made exactly `length` draws. -/
theorem fillCode_pos (rd : Reader) (n : Nat) : ∀ (pos : Nat) (acc : List Char) (code : String) (q : Nat),
    fillCode rd n pos acc = (Gen.ret code none, q) →
    q = pos + n ∧ code.length = acc.length + n ∧ ∀ c ∈ code.data, c ∈ acc ∨ c ∈ charset.data := by
  induction n with
  | zero =>
    intro pos acc code q h
    simp only [fillCode, Prod.mk.injEq, Gen.ret.injEq, and_true] at h
    obtain ⟨rfl, rfl⟩ := h
    exact ⟨rfl, rfl, fun c hc => Or.inl hc⟩
  | succ n ih =>
    intro pos acc code q h
    simp only [fillCode] at h
    split at h
    · simp at h
    · split at h
      · simp at h
      · next c hc =>
        obtain ⟨h1, h2, h3⟩ := ih _ _ _ _ h
        refine ⟨by omega, by simp at h2; omega, fun d hd => ?_⟩
        rcases h3 d hd with hd | hd
        · rcases List.mem_append.mp hd with hd | hd
          · exact Or.inl hd
          · rw [List.mem_singleton.mp hd]
            exact Or.inr (List.getElem?_mem hc)
        · exact Or.inr hd

theorem GenerateShortCode_six (rd : Reader) (pos : Nat) (code : String) (q : Nat)
    (h : GenerateShortCode rd pos 6 = (Gen.ret code none, q)) :
    q = pos + 6 ∧ code.length = 6 ∧ ∀ c ∈ code.data, c ∈ charset.data := by
  have h2 : fillCode rd 6 pos [] = (Gen.ret code none, q) := by
    have h6 : ¬ ((6 : Int) < 0 ∨ (maxAlloc : Int) < 6) := by decide
    simpa only [GenerateShortCode, h6, if_false] using h
  obtain ⟨h1, h2, h3⟩ := fillCode_pos rd 6 pos [] code q h2
  refine ⟨h1, by simpa using h2, fun c hc => ?_⟩
  rcases h3 c hc with hc | hc
  · simp at hc
  · exact hc

theorem GenerateShortCode_total (rd : Reader) (pos : Nat) (length : Int) (hlen : 0 ≤ length)
    (hmax : length ≤ maxAlloc)
    (hrd : ∀ i, i < length.toNat → ∃ k, k < 62 ∧ rd (pos + i) = Draw.num k) :
    ∃ code : String,
      GenerateShortCode rd pos length = (Gen.ret code none, pos + length.toNat) ∧
      (code.length : Int) = length ∧
      ∀ c ∈ code.data, c ∈ charset.data ∧ c.isAlphanum = true := by
  obtain ⟨cs, hl, hmem, hfill⟩ := fillCode_ok rd length.toNat pos [] hrd
  refine ⟨String.mk cs, ?_, ?_, ?_⟩
  · have : ¬ (length < 0 ∨ (maxAlloc : Int) < length) := by omega
    simpa only [GenerateShortCode, this, if_false, List.nil_append] using hfill
  · show ((cs.length : Nat) : Int) = length
    rw [hl]; exact Int.toNat_of_nonneg hlen
  · intro c hc
    exact ⟨hmem c hc, charset_alnum c (hmem c hc)⟩

/-- C1, counterexample: 2 ^ 62 is a Go `int` and at least 1, every draw of the constant
source succeeds with the value 0, yet `GenerateShortCode(1 << 62)` does not return a code:
`make([]byte, length)` panics and no draw is made. -/
theorem GenerateShortCode_huge_length :
    (1 : Int) ≤ 2 ^ 62 ∧ (2 : Int) ^ 62 < 2 ^ 63 ∧
    (∀ i : Nat, ∃ k, k < 62 ∧ constReader 0 i = Draw.num k) ∧
    GenerateShortCode (constReader 0) 0 (2 ^ 62) = (Gen.panic, 0) := by
  refine ⟨by norm_num, by norm_num, fun _ => ⟨0, by decide, rfl⟩, ?_⟩
  have : (2 : Int) ^ 62 < 0 ∨ (maxAlloc : Int) < 2 ^ 62 := by
    right; unfold maxAlloc; norm_num
  simp only [GenerateShortCode, this, if_true]

/-- C1, amended: for every length with 0 <= length <= `maxAlloc` (the lengths for which
`make([]byte, length)` does not panic) and every random source whose draws (the `length`
draws the call makes, starting at draw `pos`) all succeed with values in [0, 62),
`GenerateShortCode(length)` returns a nil error (hence does not panic: the charset index is
in bounds) and a string of exactly `length` characters, each a member of the
62-character charset and each a letter or digit. -/
theorem GenerateShortCode_spec (rd : Reader) (pos : Nat) (length : Int) (hlen : 0 ≤ length)
    (hmax : length ≤ maxAlloc)
    (hrd : ∀ i, i < length.toNat → ∃ k, k < 62 ∧ rd (pos + i) = Draw.num k) :
    ∃ code : String,
      GenerateShortCode rd pos length = (Gen.ret code none, pos + length.toNat) ∧
      (code.length : Int) = length ∧
      ∀ c ∈ code.data, c ∈ charset.data ∧ c.isAlphanum = true :=
  GenerateShortCode_total rd pos length hlen hmax hrd

theorem GenerateShortCode_spec_witness :
    ∃ code : String,
      GenerateShortCode (constReader 0) 0 6 = (Gen.ret code none, 0 + (6 : Int).toNat) ∧
      (code.length : Int) = 6 ∧
      ∀ c ∈ code.data, c ∈ charset.data ∧ c.isAlphanum = true :=
  GenerateShortCode_spec (constReader 0) 0 6 (by decide) (by decide)
    (fun _ _ => ⟨0, by decide, rfl⟩)

/-! ## Store contract -/

/-- C5: after any finite sequence of puts, a get of a code that occurs in it returns
found = true and the URL of the last put for that code (`pre` are the earlier puts, which
may contain the code and are overwritten; `post` are later puts, all to other codes); and
two puts with different codes, in either order, leave both mappings retrievable. -/
theorem put_get_last (s : Storage) (pre post : List (String × String)) (code url : String)
    (hlast : ∀ p ∈ post, p.1 ≠ code) :
    (s.puts (pre ++ (code, url) :: post)).get code = (url, true) ∧
    ∀ code2 url2 : String, code2 ≠ code →
      ((s.put code url).put code2 url2).get code = (url, true) ∧
      ((s.put code url).put code2 url2).get code2 = (url2, true) ∧
      ((s.put code2 url2).put code url).get code = (url, true) ∧
      ((s.put code2 url2).put code url).get code2 = (url2, true) := by
  refine ⟨?_, fun code2 url2 hne => ⟨?_, get_put_same _ _ _, get_put_same _ _ _, ?_⟩⟩
  · rw [puts_append, puts_cons, get_puts_of_not_mem _ _ _ hlast]
    exact get_put_same _ _ _
  · rw [get_put_ne _ _ _ _ (Ne.symm hne)]; exact get_put_same _ _ _
  · rw [get_put_ne _ _ _ _ hne]; exact get_put_same _ _ _

theorem put_get_last_witness :
    (Storage.empty.puts ([("abc123", "https://old.example")] ++
        ("abc123", "https://example.com") :: [("xyz789", "https://other.example")])).get "abc123"
      = ("https://example.com", true) :=
  (put_get_last Storage.empty [("abc123", "https://old.example")]
    [("xyz789", "https://other.example")] "abc123" "https://example.com" (by decide)).1

/-- C6: in a store built from the empty table by any sequence of puts, a code that was
never put is a miss (`get` gives found = false, the membership test is false), and
`RetrieveURL` for it answers 404 with an error message, issues no redirect and leaves the
state as it was. -/
theorem miss_never_put (ops : List (String × String)) (code : String) (pos : Nat)
    (hnever : ∀ p ∈ ops, p.1 ≠ code) :
    (Storage.empty.puts ops).get code = ("", false) ∧
    (Storage.empty.puts ops).has code = false ∧
    RetrieveURL ⟨Storage.empty.puts ops, pos⟩ code =
      Outcome.done (Response.json 404 "error" "Short URL not found") ⟨Storage.empty.puts ops, pos⟩ := by
  have hget : (Storage.empty.puts ops).get code = ("", false) := by
    rw [get_puts_of_not_mem _ _ _ hnever]; rfl
  refine ⟨hget, by simp [Storage.has, hget], ?_⟩
  simp [RetrieveURL, hget]

theorem miss_never_put_witness :
    (Storage.empty.puts [("abc123", "https://example.com")]).get "doesnotexist" = ("", false) ∧
    (Storage.empty.puts [("abc123", "https://example.com")]).has "doesnotexist" = false ∧
    RetrieveURL ⟨Storage.empty.puts [("abc123", "https://example.com")], 6⟩ "doesnotexist" =
      Outcome.done (Response.json 404 "error" "Short URL not found")
        ⟨Storage.empty.puts [("abc123", "https://example.com")], 6⟩ :=
  miss_never_put [("abc123", "https://example.com")] "doesnotexist" 6 (by decide)

/-! ## Rejected requests -/

/-- C7: a `ShortenURL` request whose body does not bind, or whose url is rejected by
`url.ParseRequestURI`, answers 400 with an error message; the state after it equals the
state before it: no mapping is created and no random draw is made (whatever the fuel, the
allocation loop is not entered). -/
theorem ShortenURL_bad_request (rd : Reader) (fuel : Nat) (w : World) (bind : Option RequestBody)
    (hbad : bind = none ∨ ∃ req, bind = some req ∧ ParseRequestURI req.URL ≠ none) :
    ∃ msg : String, ShortenURL rd fuel w bind = some (Outcome.done (Response.json 400 "error" msg) w) := by
  rcases hbad with rfl | ⟨req, rfl, hreq⟩
  · exact ⟨"Invalid request body", rfl⟩
  · refine ⟨"Invalid URL", ?_⟩
    cases hp : ParseRequestURI req.URL with
    | none => exact absurd hp hreq
    | some e => simp [ShortenURL, hp]

theorem ShortenURL_bad_request_witness :
    ∃ msg : String, ShortenURL (constReader 0) 0 ⟨Storage.empty.put "abc123" "https://example.com", 6⟩
        (some ⟨"not-a-url"⟩) =
      some (Outcome.done (Response.json 400 "error" msg)
        ⟨Storage.empty.put "abc123" "https://example.com", 6⟩) :=
  ShortenURL_bad_request (constReader 0) 0 _ (some ⟨"not-a-url"⟩)
    (Or.inr ⟨⟨"not-a-url"⟩, rfl, by decide⟩)

/-! ## The allocation loop -/

theorem GenerateShortCode_congr (rd1 rd2 : Reader) (pos : Nat)
    (h : ∀ i, i < 6 → rd1 (pos + i) = rd2 (pos + i)) :
    GenerateShortCode rd1 pos 6 = GenerateShortCode rd2 pos 6 := by
  have h6 : ¬ ((6 : Int) < 0 ∨ (maxAlloc : Int) < 6) := by decide
  simp only [GenerateShortCode, h6, if_false]
  exact fillCode_congr rd1 rd2 _ pos [] h

theorem GenerateShortCode_const0 (pos : Nat) :
    GenerateShortCode (constReader 0) pos 6 = (Gen.ret "aaaaaa" none, pos + 6) := rfl

theorem GenerateShortCode_const1 (pos : Nat) :
    GenerateShortCode (constReader 1) pos 6 = (Gen.ret "bbbbbb" none, pos + 6) := rfl

theorem allocLoop_collide (rd : Reader) (store : Storage) (fuel pos : Nat) (c : String)
    (hg : (GenerateShortCode rd pos 6).1 = Gen.ret c none) (hc : store.has c = true) :
    allocLoop rd store (fuel + 1) pos = allocLoop rd store fuel (pos + 6) := by
  cases hG : GenerateShortCode rd pos 6 with
  | mk g q =>
    rw [hG] at hg
    simp only at hg
    subst hg
    obtain ⟨hq, -, -⟩ := GenerateShortCode_six rd pos c q hG
    simp [allocLoop, hG, hc, hq]

theorem allocLoop_stop (rd : Reader) (store : Storage) (fuel pos : Nat) (g : Gen) (q : Nat)
    (hG : GenerateShortCode rd pos 6 = (g, q))
    (hstop : ∀ c, g = Gen.ret c none → store.has c = false) :
    allocLoop rd store (fuel + 1) pos = some (g, q) := by
  cases g with
  | panic => simp [allocLoop, hG]
  | ret c err =>
    cases err with
    | some e => simp [allocLoop, hG]
    | none => simp [allocLoop, hG, hstop c rfl]

theorem allocLoop_skip (rd : Reader) (store : Storage) (n : Nat) : ∀ (pos fuel : Nat),
    (∀ i, i < n → ∃ c, (GenerateShortCode rd (pos + 6 * i) 6).1 = Gen.ret c none ∧ store.has c = true) →
    allocLoop rd store (n + fuel) pos = allocLoop rd store fuel (pos + 6 * n) := by
  induction n with
  | zero => intro pos fuel _; simp
  | succ n ih =>
    intro pos fuel h
    obtain ⟨c, hg, hc⟩ := h 0 (Nat.succ_pos n)
    rw [show n + 1 + fuel = (n + fuel) + 1 by omega, allocLoop_collide rd store _ pos c hg hc,
      ih (pos + 6) fuel (fun i hi => by
        have := h (i + 1) (Nat.succ_lt_succ hi)
        rwa [show pos + 6 * (i + 1) = pos + 6 + 6 * i by omega] at this)]
    congr 1; omega

theorem allocLoop_short (rd : Reader) (store : Storage) (n pos fuel : Nat)
    (h : ∀ i, i < n → ∃ c, (GenerateShortCode rd (pos + 6 * i) 6).1 = Gen.ret c none ∧ store.has c = true)
    (hfuel : fuel ≤ n) : allocLoop rd store fuel pos = none := by
  have := allocLoop_skip rd store fuel pos 0 (fun i hi => h i (by omega))
  simpa [allocLoop] using this

theorem allocLoop_first (rd : Reader) (store : Storage) (n pos fuel : Nat) (g : Gen) (q : Nat)
    (h : ∀ i, i < n → ∃ c, (GenerateShortCode rd (pos + 6 * i) 6).1 = Gen.ret c none ∧ store.has c = true)
    (hG : GenerateShortCode rd (pos + 6 * n) 6 = (g, q))
    (hstop : ∀ c, g = Gen.ret c none → store.has c = false)
    (hfuel : n < fuel) : allocLoop rd store fuel pos = some (g, q) := by
  obtain ⟨d, rfl⟩ : ∃ d, fuel = n + (d + 1) := ⟨fuel - n - 1, by omega⟩
  rw [allocLoop_skip rd store n pos (d + 1) h]
  exact allocLoop_stop rd store d _ g q hG hstop

theorem allocLoop_result (rd : Reader) (store : Storage) (fuel : Nat) : ∀ (pos : Nat) (code : String) (q : Nat),
    allocLoop rd store fuel pos = some (Gen.ret code none, q) →
    store.has code = false ∧ code.length = 6 ∧ ∀ c ∈ code.data, c ∈ charset.data := by
  induction fuel with
  | zero => intro pos code q h; simp [allocLoop] at h
  | succ fuel ih =>
    intro pos code q h
    cases hG : GenerateShortCode rd pos 6 with
    | mk g p1 =>
      cases g with
      | panic => simp [allocLoop, hG] at h
      | ret c err =>
        cases err with
        | some e => simp [allocLoop, hG] at h
        | none =>
          cases hc : store.has c with
          | true =>
            simp only [allocLoop, hG, hc, if_true] at h
            exact ih _ _ _ h
          | false =>
            simp [allocLoop, hG, hc] at h
            obtain ⟨rfl, rfl⟩ := h
            obtain ⟨-, h2, h3⟩ := GenerateShortCode_six rd pos c p1 hG
            exact ⟨hc, h2, h3⟩

theorem fillCode_err (rd : Reader) (n : Nat) : ∀ (pos : Nat) (acc : List Char) (j : Nat) (e : String),
    j < n → (∀ i, i < j → ∃ k, k < 62 ∧ rd (pos + i) = Draw.num k) → rd (pos + j) = Draw.err e →
    fillCode rd n pos acc = (Gen.ret "" (some e), pos + j + 1) := by
  induction n with
  | zero => intro pos acc j e hj; omega
  | succ n ih =>
    intro pos acc j e hj hpre herr
    cases j with
    | zero =>
      rw [Nat.add_zero] at herr
      simp [fillCode, herr]
    | succ j =>
      obtain ⟨k, hk, hrd⟩ := hpre 0 (Nat.succ_pos j)
      rw [Nat.add_zero] at hrd
      have hmod : k % 2 ^ 64 = k := Nat.mod_eq_of_lt (by omega)
      have hlt : k < charset.data.length := by rw [charset_length]; exact hk
      have := ih (pos + 1) (acc ++ [charset.data[k]]) j e (by omega)
        (fun i hi => by
          obtain ⟨k2, hk2, h2⟩ := hpre (i + 1) (Nat.succ_lt_succ hi)
          exact ⟨k2, hk2, by rw [← h2]; congr 1; omega⟩)
        (by rw [← herr]; congr 1; omega)
      simp only [fillCode, hrd, hmod, List.getElem?_eq_getElem hlt, this]
      congr 1
      omega

theorem stepReader_collide (n i : Nat) (hi : i < n) :
    (GenerateShortCode (stepReader n) (0 + 6 * i) 6).1 = Gen.ret "aaaaaa" none := by
  rw [GenerateShortCode_congr (stepReader n) (constReader 0) _ (fun t ht => by
    have : 0 + 6 * i + t < 6 * n := by omega
    simp only [stepReader, constReader, if_pos this]), GenerateShortCode_const0]

theorem stepReader_fresh (n : Nat) :
    GenerateShortCode (stepReader n) (0 + 6 * n) 6 = (Gen.ret "bbbbbb" none, 0 + 6 * n + 6) := by
  rw [GenerateShortCode_congr (stepReader n) (constReader 1) _ (fun t _ => by
    have : ¬ (0 + 6 * n + t < 6 * n) := by omega
    simp only [stepReader, constReader, if_neg this]), GenerateShortCode_const1]

/-- C10: the allocation loop of `ShortenURL`, run on a sequence `cand` of successfully
generated six-character candidates (candidate `i` is generated from draw `pos + 6 * i`),
returns the first candidate absent from the table and has then consumed exactly the
candidates up to it (`n + 1` generations: any fuel above `n` gives it, no fuel up to `n`
does).  There is no cap on the attempts: for every `n` there are a random source and a
table on which `n` generations do not suffice and the loop returns after `n + 1`; and when
every candidate is in the table the loop, and a `ShortenURL` request with a valid url,
do not return for any fuel. -/
theorem allocLoop_unbounded :
    (∀ (rd : Reader) (store : Storage) (pos n : Nat) (cand : Nat → String),
      (∀ i, i ≤ n → (GenerateShortCode rd (pos + 6 * i) 6).1 = Gen.ret (cand i) none) →
      (∀ i, i < n → store.has (cand i) = true) → store.has (cand n) = false →
      (∀ fuel, n < fuel →
        allocLoop rd store fuel pos = some (Gen.ret (cand n) none, pos + 6 * (n + 1))) ∧
      (∀ fuel, fuel ≤ n → allocLoop rd store fuel pos = none)) ∧
    (∀ n : Nat, ∃ (rd : Reader) (store : Storage) (code : String),
      allocLoop rd store n 0 = none ∧
      allocLoop rd store (n + 1) 0 = some (Gen.ret code none, 6 * (n + 1))) ∧
    (∀ (rd : Reader) (store : Storage) (pos : Nat) (cand : Nat → String),
      (∀ i, (GenerateShortCode rd (pos + 6 * i) 6).1 = Gen.ret (cand i) none ∧
        store.has (cand i) = true) →
      ∀ fuel, allocLoop rd store fuel pos = none ∧
        ∀ req : RequestBody, ParseRequestURI req.URL = none →
          ShortenURL rd fuel ⟨store, pos⟩ (some req) = none) := by
  refine ⟨?_, ?_, ?_⟩
  · intro rd store pos n cand hgen hin hout
    have hcol : ∀ i, i < n → ∃ c, (GenerateShortCode rd (pos + 6 * i) 6).1 = Gen.ret c none ∧
        store.has c = true := fun i hi => ⟨cand i, hgen i (Nat.le_of_lt hi), hin i hi⟩
    refine ⟨fun fuel hfuel => ?_, fun fuel hfuel => allocLoop_short rd store n pos fuel hcol hfuel⟩
    cases hG : GenerateShortCode rd (pos + 6 * n) 6 with
    | mk g q =>
      have hg : g = Gen.ret (cand n) none := by simpa [hG] using hgen n (Nat.le_refl n)
      subst hg
      obtain ⟨hq, -, -⟩ := GenerateShortCode_six rd _ _ q hG
      rw [allocLoop_first rd store n pos fuel _ q hcol hG
        (fun c hc => by cases hc; exact hout) hfuel, hq]
      congr 2
  · intro n
    have hcol : ∀ i, i < n → ∃ c, (GenerateShortCode (stepReader n) (0 + 6 * i) 6).1 = Gen.ret c none ∧
        (Storage.empty.put "aaaaaa" "https://example.com").has c = true :=
      fun i hi => ⟨"aaaaaa", stepReader_collide n i hi, by decide⟩
    refine ⟨stepReader n, Storage.empty.put "aaaaaa" "https://example.com", "bbbbbb",
      allocLoop_short _ _ n 0 n hcol (Nat.le_refl n), ?_⟩
    rw [allocLoop_first _ _ n 0 (n + 1) _ _ hcol (stepReader_fresh n)
      (fun c hc => by cases hc; decide) (Nat.lt_succ_self n)]
    congr 2; omega
  · intro rd store pos cand hall fuel
    have hnone : allocLoop rd store fuel pos = none :=
      allocLoop_short rd store fuel pos fuel (fun i _ => ⟨cand i, hall i⟩) (Nat.le_refl fuel)
    exact ⟨hnone, fun req hv => by simp [ShortenURL, hv, hnone]⟩

theorem allocLoop_unbounded_witness :
    (∀ fuel, 1 < fuel →
      allocLoop (stepReader 1) (Storage.empty.put "aaaaaa" "https://example.com") fuel 0 =
        some (Gen.ret "bbbbbb" none, 0 + 6 * (1 + 1))) ∧
    (∀ fuel, fuel ≤ 1 →
      allocLoop (stepReader 1) (Storage.empty.put "aaaaaa" "https://example.com") fuel 0 = none) :=
  allocLoop_unbounded.1 (stepReader 1) (Storage.empty.put "aaaaaa" "https://example.com") 0 1
    (fun i => if i = 0 then "aaaaaa" else "bbbbbb")
    (fun i hi => by
      have : i = 0 ∨ i = 1 := by omega
      rcases this with rfl | rfl <;> rfl)
    (fun i hi => by
      have : i = 0 := by omega
      subst this; decide)
    (by decide)

/-! ## Failure of the random source -/

/-- C8: when a draw of the random source returns an error (the call makes draws, its
length being a length `make` allocates, at most `maxAlloc`; the draws of the call before
the failing one have succeeded with values below 62), `GenerateShortCode` returns that
error with an empty code and has made no draw after the failing one; a `ShortenURL` request with a valid
url in which this happens (after `n` generations that collided with stored codes) answers
500 with an error message, makes no further draw or generation, and leaves the table
unchanged. -/
theorem random_source_failure :
    (∀ (rd : Reader) (pos : Nat) (length : Int) (j : Nat) (e : String),
      0 ≤ length → length ≤ maxAlloc → j < length.toNat →
      (∀ i, i < j → ∃ k, k < 62 ∧ rd (pos + i) = Draw.num k) → rd (pos + j) = Draw.err e →
      GenerateShortCode rd pos length = (Gen.ret "" (some e), pos + j + 1)) ∧
    (∀ (rd : Reader) (w : World) (req : RequestBody) (n j : Nat) (e : String) (fuel : Nat),
      ParseRequestURI req.URL = none →
      (∀ i, i < n → ∃ c, (GenerateShortCode rd (w.pos + 6 * i) 6).1 = Gen.ret c none ∧
        w.store.has c = true) →
      j < 6 → (∀ i, i < j → ∃ k, k < 62 ∧ rd (w.pos + 6 * n + i) = Draw.num k) →
      rd (w.pos + 6 * n + j) = Draw.err e → n < fuel →
      ShortenURL rd fuel w (some req) =
        some (Outcome.done (Response.json 500 "error" "Could not generate short code")
          ⟨w.store, w.pos + 6 * n + j + 1⟩)) := by
  have hgen : ∀ (rd : Reader) (pos : Nat) (length : Int) (j : Nat) (e : String),
      0 ≤ length → length ≤ maxAlloc → j < length.toNat →
      (∀ i, i < j → ∃ k, k < 62 ∧ rd (pos + i) = Draw.num k) → rd (pos + j) = Draw.err e →
      GenerateShortCode rd pos length = (Gen.ret "" (some e), pos + j + 1) := by
    intro rd pos length j e hlen hmax hj hpre herr
    have : ¬ (length < 0 ∨ (maxAlloc : Int) < length) := by omega
    simp only [GenerateShortCode, this, if_false]
    exact fillCode_err rd _ pos [] j e hj hpre herr
  refine ⟨hgen, ?_⟩
  intro rd w req n j e fuel hv hcol hj hpre herr hfuel
  have hG := hgen rd (w.pos + 6 * n) 6 j e (by decide) (by decide) (by simpa using hj) hpre herr
  have hloop := allocLoop_first rd w.store n w.pos fuel _ _ hcol hG
    (fun c hc => by cases hc) hfuel
  simp [ShortenURL, hv, hloop]

theorem random_source_failure_witness :
    ShortenURL (fun p => if p < 8 then Draw.num 0 else Draw.err "EOF") 2
        ⟨Storage.empty.put "aaaaaa" "https://example.com", 0⟩ (some ⟨"https://example.org"⟩) =
      some (Outcome.done (Response.json 500 "error" "Could not generate short code")
        ⟨Storage.empty.put "aaaaaa" "https://example.com", 0 + 6 * 1 + 2 + 1⟩) :=
  random_source_failure.2 (fun p => if p < 8 then Draw.num 0 else Draw.err "EOF")
    ⟨Storage.empty.put "aaaaaa" "https://example.com", 0⟩ ⟨"https://example.org"⟩ 1 2 "EOF" 2
    (by decide)
    (fun i hi => by
      have : i = 0 := by omega
      subst this; exact ⟨"aaaaaa", by decide, by decide⟩)
    (by decide)
    (fun i hi => by
      have : i = 0 ∨ i = 1 := by omega
      rcases this with rfl | rfl <;> exact ⟨0, by decide, by decide⟩)
    (by decide) (by decide)

/-! ## The handlers -/

theorem ShortenURL_cases (rd : Reader) (fuel : Nat) (w : World) (bind : Option RequestBody) (o : Outcome)
    (h : ShortenURL rd fuel w bind = some o) :
    (o.world.store = w.store ∧ o.shortURL = none) ∨
    ∃ (req : RequestBody) (code : String) (q : Nat), bind = some req ∧ ParseRequestURI req.URL = none ∧
      w.store.has code = false ∧ code.length = 6 ∧
      o = Outcome.done (Response.json 200 "short_url" ("http://localhost:8080/" ++ code))
        ⟨w.store.put code req.URL, q⟩ := by
  cases bind with
  | none =>
    simp only [ShortenURL, Option.some.injEq] at h
    subst h
    exact Or.inl ⟨rfl, by simp [Outcome.shortURL]⟩
  | some req =>
    cases hv : ParseRequestURI req.URL with
    | some e =>
      simp only [ShortenURL, hv, Option.some.injEq] at h
      subst h
      exact Or.inl ⟨rfl, by simp [Outcome.shortURL]⟩
    | none =>
      cases hl : allocLoop rd w.store fuel w.pos with
      | none => simp [ShortenURL, hv, hl] at h
      | some r =>
        obtain ⟨g, q⟩ := r
        cases g with
        | panic =>
          simp only [ShortenURL, hv, hl, Option.some.injEq] at h
          subst h
          exact Or.inl ⟨rfl, rfl⟩
        | ret c err =>
          cases err with
          | some e =>
            simp only [ShortenURL, hv, hl, Option.some.injEq] at h
            subst h
            exact Or.inl ⟨rfl, by simp [Outcome.shortURL]⟩
          | none =>
            simp only [ShortenURL, hv, hl, Option.some.injEq] at h
            obtain ⟨h1, h2, -⟩ := allocLoop_result rd w.store fuel w.pos c q hl
            exact Or.inr ⟨req, c, q, rfl, hv, h1, h2, h.symm⟩

theorem RetrieveURL_cases (w : World) (c : String) :
    (RetrieveURL w c).world = w ∧ (RetrieveURL w c).shortURL = none := by
  unfold RetrieveURL
  cases hg : w.store.get c with
  | mk v b => cases b <;> exact ⟨rfl, by simp [Outcome.shortURL]⟩

theorem get_true_ne_of_not_has (s : Storage) (k u c : String) (hk : s.get k = (u, true))
    (hc : s.has c = false) : k ≠ c := by
  rintro rfl
  simp [Storage.has, hk] at hc

theorem ShortenURL_get (rd : Reader) (fuel : Nat) (w : World) (bind : Option RequestBody) (o : Outcome)
    (h : ShortenURL rd fuel w bind = some o) (k u : String) (hk : w.store.get k = (u, true)) :
    o.world.store.get k = (u, true) := by
  rcases ShortenURL_cases rd fuel w bind o h with ⟨hs, -⟩ | ⟨req, c, q, -, -, hc, -, rfl⟩
  · rw [hs]; exact hk
  · show (w.store.put c req.URL).get k = (u, true)
    rw [get_put_ne _ _ _ _ (get_true_ne_of_not_has _ _ _ _ hk hc)]; exact hk

theorem handle_get (rd : Reader) (fuel : Nat) (w : World) (r : Request) (o : Outcome)
    (h : handle rd fuel w r = some o) (k u : String) (hk : w.store.get k = (u, true)) :
    o.world.store.get k = (u, true) := by
  cases r with
  | shorten bind => exact ShortenURL_get rd fuel w bind o h k u hk
  | retrieve c =>
    simp only [handle, Option.some.injEq] at h
    subst h
    rw [(RetrieveURL_cases w c).1]; exact hk

theorem base_append_injective (a b : String)
    (h : "http://localhost:8080/" ++ a = "http://localhost:8080/" ++ b) : a = b := by
  have := congrArg String.data h
  simp only [String.data_append] at this
  exact String.ext (List.append_cancel_left this)

theorem serve_codes (rd : Reader) (fuel : Nat) (reqs : List Request) :
    ∀ (w : World) (outs : List Outcome) (w1 : World), serve rd fuel w reqs = some (outs, w1) →
    (∀ k u, w.store.get k = (u, true) → w1.store.get k = (u, true)) ∧
    ∃ codes : List String, codes.Nodup ∧
      (∀ c ∈ codes, w.store.has c = false ∧ w1.store.has c = true) ∧
      outs.filterMap Outcome.shortURL = codes.map (fun c => "http://localhost:8080/" ++ c) := by
  induction reqs with
  | nil =>
    intro w outs w1 h
    simp only [serve, Option.some.injEq, Prod.mk.injEq] at h
    obtain ⟨rfl, rfl⟩ := h
    exact ⟨fun _ _ hk => hk, [], List.nodup_nil, by simp, rfl⟩
  | cons r rs ih =>
    intro w outs w1 h
    cases ho : handle rd fuel w r with
    | none => simp [serve, ho] at h
    | some o =>
      cases hs : serve rd fuel o.world rs with
      | none => simp [serve, ho, hs] at h
      | some res =>
        obtain ⟨os, w2⟩ := res
        simp only [serve, ho, hs, Option.some.injEq, Prod.mk.injEq] at h
        obtain ⟨rfl, rfl⟩ := h
        obtain ⟨hkeep, codes, hnd, hfresh, hurls⟩ := ih o.world os w2 hs
        have hstep := handle_get rd fuel w r o ho
        refine ⟨fun k u hk => hkeep k u (hstep k u hk), ?_⟩
        have hsame : o.world.store = w.store ∧ o.shortURL = none →
            ∃ codes : List String, codes.Nodup ∧
              (∀ c ∈ codes, w.store.has c = false ∧ w2.store.has c = true) ∧
              (o :: os).filterMap Outcome.shortURL =
                codes.map (fun c => "http://localhost:8080/" ++ c) := by
          rintro ⟨hst, hno⟩
          refine ⟨codes, hnd, fun c hc => ?_, ?_⟩
          · rw [← hst]; exact hfresh c hc
          · rw [List.filterMap_cons, hno]; exact hurls
        cases r with
        | retrieve c =>
          simp only [handle, Option.some.injEq] at ho
          subst ho
          exact hsame ⟨by rw [(RetrieveURL_cases w c).1], (RetrieveURL_cases w c).2⟩
        | shorten bind =>
          rcases ShortenURL_cases rd fuel w bind o ho with hl | ⟨req, c, q, -, -, hc, -, rfl⟩
          · exact hsame hl
          · have hin : (w.store.put c req.URL).has c = true := has_put_same _ _ _
            refine ⟨c :: codes, List.nodup_cons.mpr ⟨fun hmem => ?_, hnd⟩, fun d hd => ?_, ?_⟩
            · have := (hfresh c hmem).1
              simp only [Outcome.world] at this
              rw [hin] at this
              exact Bool.noConfusion this
            · rcases List.mem_cons.mp hd with rfl | hd
              · refine ⟨hc, ?_⟩
                have hg : (w.store.put d req.URL).get d = (req.URL, true) := get_put_same _ _ _
                exact has_of_get _ _ _ (hkeep d req.URL hg)
              · obtain ⟨h1, h2⟩ := hfresh d hd
                simp only [Outcome.world] at h1
                have hne : d ≠ c := by
                  rintro rfl
                  rw [hin] at h1
                  exact Bool.noConfusion h1
                rw [has_put_ne _ _ _ _ hne] at h1
                exact ⟨h1, h2⟩
            · rw [List.filterMap_cons]
              simp only [Outcome.shortURL, and_self, if_true, List.map_cons, hurls]

/-! ## Create, then resolve -/

/-- C2: for every table state, every request url accepted by `url.ParseRequestURI` and
every random source whose draws (from the current one on) succeed with values below 62 and
that at some attempt yields a code absent from the table, `ShortenURL` (given enough fuel
for its loop) answers 200 with `short_url` equal to "http://localhost:8080/" followed by a
code of exactly 6 charset characters, and `RetrieveURL` for that code in the resulting
state answers with a 302 redirect to exactly the submitted url. -/
theorem shorten_then_retrieve (rd : Reader) (w : World) (req : RequestBody)
    (hvalid : ParseRequestURI req.URL = none)
    (hdraws : ∀ i, w.pos ≤ i → ∃ k, k < 62 ∧ rd i = Draw.num k)
    (hfresh : ∃ (n : Nat) (code : String),
      (GenerateShortCode rd (w.pos + 6 * n) 6).1 = Gen.ret code none ∧ w.store.has code = false) :
    ∃ (fuel0 : Nat) (code : String) (w1 : World),
      (∀ fuel, fuel0 ≤ fuel → ShortenURL rd fuel w (some req) =
        some (Outcome.done (Response.json 200 "short_url" ("http://localhost:8080/" ++ code)) w1)) ∧
      code.length = 6 ∧ (∀ c ∈ code.data, c ∈ charset.data ∧ c.isAlphanum = true) ∧
      RetrieveURL w1 code = Outcome.done (Response.redirect 302 req.URL) w1 := by
  classical
  have hex : ∃ n, ∃ code : String,
      (GenerateShortCode rd (w.pos + 6 * n) 6).1 = Gen.ret code none ∧ w.store.has code = false := hfresh
  obtain ⟨code, hg, hout⟩ := Nat.find_spec hex
  have hcol : ∀ i, i < Nat.find hex → ∃ c,
      (GenerateShortCode rd (w.pos + 6 * i) 6).1 = Gen.ret c none ∧ w.store.has c = true := by
    intro i hi
    obtain ⟨c, hc, -, -⟩ := GenerateShortCode_total rd (w.pos + 6 * i) 6 (by decide) (by decide)
      (fun t _ => hdraws _ (by omega))
    refine ⟨c, by rw [hc], ?_⟩
    cases hh : w.store.has c with
    | true => rfl
    | false => exact absurd ⟨c, by rw [hc], hh⟩ (Nat.find_min hex hi)
  cases hG : GenerateShortCode rd (w.pos + 6 * Nat.find hex) 6 with
  | mk g q =>
    have hgq : g = Gen.ret code none := by simpa [hG] using hg
    subst hgq
    obtain ⟨-, hlen, hchars⟩ := GenerateShortCode_six rd _ code q hG
    refine ⟨Nat.find hex + 1, code, ⟨w.store.put code req.URL, q⟩, fun fuel hfuel => ?_, hlen,
      fun c hc => ⟨hchars c hc, charset_alnum c (hchars c hc)⟩, ?_⟩
    · have hloop := allocLoop_first rd w.store (Nat.find hex) w.pos fuel _ q hcol hG
        (fun c hc => by cases hc; exact hout) (by omega)
      simp [ShortenURL, hvalid, hloop]
    · simp [RetrieveURL, get_put_same]

theorem shorten_then_retrieve_witness :
    ∃ (fuel0 : Nat) (code : String) (w1 : World),
      (∀ fuel, fuel0 ≤ fuel →
        ShortenURL (constReader 0) fuel ⟨Storage.empty.put "abc123" "https://example.com", 6⟩
          (some ⟨"https://example.com"⟩) =
        some (Outcome.done (Response.json 200 "short_url" ("http://localhost:8080/" ++ code)) w1)) ∧
      code.length = 6 ∧ (∀ c ∈ code.data, c ∈ charset.data ∧ c.isAlphanum = true) ∧
      RetrieveURL w1 code = Outcome.done (Response.redirect 302 "https://example.com") w1 :=
  shorten_then_retrieve (constReader 0) ⟨Storage.empty.put "abc123" "https://example.com", 6⟩
    ⟨"https://example.com"⟩ (by decide) (fun _ _ => ⟨0, by decide, rfl⟩)
    ⟨0, "aaaaaa", by decide, by decide⟩

/-! ## Existing entries -/

/-- Handlers that do not overlap: when the table maps `code` to `url`, every `ShortenURL`
request run on it from start to end, whatever its outcome, leaves a table that still maps
`code` to `url`; the request either leaves the
table as it was or adds one entry under a code that was absent from the table.  The same
holds after any sequence of requests served one after another, and the codes returned by the successful creates of
the sequence are pairwise distinct (so are the `short_url` values, each the base followed
by its code). -/
theorem serial_create_keeps_entries (rd : Reader) (fuel : Nat) (w : World) (code url : String)
    (hentry : w.store.get code = (url, true)) :
    (∀ (bind : Option RequestBody) (o : Outcome), ShortenURL rd fuel w bind = some o →
      o.world.store.get code = (url, true) ∧
      (o.world.store = w.store ∨
        ∃ c u, w.store.has c = false ∧ o.world.store = w.store.put c u)) ∧
    (∀ (reqs : List Request) (outs : List Outcome) (w1 : World),
      serve rd fuel w reqs = some (outs, w1) →
      w1.store.get code = (url, true) ∧
      (outs.filterMap Outcome.shortURL).Nodup ∧
      ∃ codes : List String, codes.Nodup ∧
        outs.filterMap Outcome.shortURL = codes.map (fun c => "http://localhost:8080/" ++ c)) := by
  refine ⟨fun bind o h => ⟨ShortenURL_get rd fuel w bind o h code url hentry, ?_⟩,
    fun reqs outs w1 h => ?_⟩
  · rcases ShortenURL_cases rd fuel w bind o h with ⟨hs, -⟩ | ⟨req, c, q, -, -, hc, -, rfl⟩
    · exact Or.inl hs
    · exact Or.inr ⟨c, req.URL, hc, rfl⟩
  · obtain ⟨hkeep, codes, hnd, -, hurls⟩ := serve_codes rd fuel reqs w outs w1 h
    refine ⟨hkeep code url hentry, ?_, codes, hnd, hurls⟩
    rw [hurls]
    exact hnd.map (fun a b hab => base_append_injective a b hab)

/-! ## Overlapping creates -/

theorem stepAlone_returned (rd : Reader) (n : Nat) (resp : Response) (w : World) :
    stepAlone rd n (Handler.returned resp, w) = (Handler.returned resp, w) := by
  induction n with
  | zero => rfl
  | succ n ih => simpa [stepAlone, Handler.step] using ih

theorem stepAlone_panicked (rd : Reader) (n : Nat) (w : World) :
    stepAlone rd n (Handler.panicked, w) = (Handler.panicked, w) := by
  induction n with
  | zero => rfl
  | succ n ih => simpa [stepAlone, Handler.step] using ih

theorem stepAlone_loop (rd : Reader) (store : Storage) (url : String) (fuel : Nat) :
    ∀ (pos : Nat) (g : Gen) (q : Nat), allocLoop rd store fuel pos = some (g, q) →
    Handler.outcome (stepAlone rd (fuel + 1) (Handler.looping url, ⟨store, pos⟩)) =
      match g with
      | Gen.panic => some (Outcome.panic ⟨store, q⟩)
      | Gen.ret _ (some _) =>
        some (Outcome.done (Response.json 500 "error" "Could not generate short code") ⟨store, q⟩)
      | Gen.ret shortCode none =>
        some (Outcome.done (Response.json 200 "short_url" ("http://localhost:8080/" ++ shortCode))
          ⟨store.put shortCode url, q⟩) := by
  induction fuel with
  | zero => intro pos g q h; simp [allocLoop] at h
  | succ fuel ih =>
    intro pos g q h
    cases hG : GenerateShortCode rd pos 6 with
    | mk g1 p1 =>
      cases g1 with
      | panic =>
        simp only [allocLoop, hG, Option.some.injEq, Prod.mk.injEq] at h
        obtain ⟨rfl, rfl⟩ := h
        simp [stepAlone, Handler.step, hG, stepAlone_panicked, Handler.outcome]
      | ret c err =>
        cases err with
        | some e =>
          simp only [allocLoop, hG, Option.some.injEq, Prod.mk.injEq] at h
          obtain ⟨rfl, rfl⟩ := h
          simp [stepAlone, Handler.step, hG, stepAlone_returned, Handler.outcome]
        | none =>
          cases hc : store.has c with
          | true =>
            simp only [allocLoop, hG, hc, if_true] at h
            have := ih p1 g q h
            simpa [stepAlone, Handler.step, hG, hc] using this
          | false =>
            simp [allocLoop, hG, hc] at h
            obtain ⟨rfl, rfl⟩ := h
            simp [stepAlone, Handler.step, hG, hc, stepAlone_returned, Handler.outcome]

/-- A handler stepped with no other handler in between ends as `ShortenURL` does. -/
theorem stepAlone_eq_ShortenURL (rd : Reader) (fuel : Nat) (w : World) (bind : Option RequestBody)
    (o : Outcome) (h : ShortenURL rd fuel w bind = some o) :
    Handler.outcome (stepAlone rd (fuel + 2) (Handler.entry bind, w)) = some o := by
  cases bind with
  | none =>
    simp only [ShortenURL, Option.some.injEq] at h
    subst h
    simp [stepAlone, Handler.step, stepAlone_returned, Handler.outcome]
  | some req =>
    cases hv : ParseRequestURI req.URL with
    | some e =>
      simp only [ShortenURL, hv, Option.some.injEq] at h
      subst h
      simp [stepAlone, Handler.step, hv, stepAlone_returned, Handler.outcome]
    | none =>
      cases hl : allocLoop rd w.store fuel w.pos with
      | none => simp [ShortenURL, hv, hl] at h
      | some r =>
        obtain ⟨g, q⟩ := r
        have hloop := stepAlone_loop rd w.store req.URL fuel w.pos g q hl
        have hstart : stepAlone rd (fuel + 2) (Handler.entry (some req), w) =
            stepAlone rd (fuel + 1) (Handler.looping req.URL, ⟨w.store, w.pos⟩) := by
          simp [stepAlone, Handler.step, hv]
        rw [hstart, hloop]
        cases g with
        | panic => simpa [ShortenURL, hv, hl] using h
        | ret c err =>
          cases err with
          | some e => simpa [ShortenURL, hv, hl] using h
          | none => simpa [ShortenURL, hv, hl] using h

/-- C3 (what the code does): two `ShortenURL` handlers A and B run concurrently on the
empty table with a random source that gives both the candidate "aaaaaa".  Scheduled A
binds, A tests, B binds, B tests, both have left the loop with "aaaaaa" tested absent on
the same table.  A then writes "aaaaaa" -> "https://a.example" and answers; B writes under
the same code: the entry that A created now maps to "https://b.example", and both
responses carry the same `short_url`. -/
theorem concurrent_creates_overwrite :
    runSchedule (constReader 0) ⟨Storage.empty, 0⟩
        [Handler.entry (some ⟨"https://a.example"⟩), Handler.entry (some ⟨"https://b.example"⟩)]
        [0, 0, 1, 1] =
      (⟨Storage.empty, 12⟩,
        [Handler.tested "aaaaaa" "https://a.example", Handler.tested "aaaaaa" "https://b.example"]) ∧
    runSchedule (constReader 0) ⟨Storage.empty, 0⟩
        [Handler.entry (some ⟨"https://a.example"⟩), Handler.entry (some ⟨"https://b.example"⟩)]
        [0, 0, 1, 1, 0] =
      (⟨Storage.empty.put "aaaaaa" "https://a.example", 12⟩,
        [Handler.returned (Response.json 200 "short_url" "http://localhost:8080/aaaaaa"),
          Handler.tested "aaaaaa" "https://b.example"]) ∧
    (Storage.empty.put "aaaaaa" "https://a.example").get "aaaaaa" = ("https://a.example", true) ∧
    runSchedule (constReader 0) ⟨Storage.empty, 0⟩
        [Handler.entry (some ⟨"https://a.example"⟩), Handler.entry (some ⟨"https://b.example"⟩)]
        [0, 0, 1, 1, 0, 1] =
      (⟨(Storage.empty.put "aaaaaa" "https://a.example").put "aaaaaa" "https://b.example", 12⟩,
        [Handler.returned (Response.json 200 "short_url" "http://localhost:8080/aaaaaa"),
          Handler.returned (Response.json 200 "short_url" "http://localhost:8080/aaaaaa")]) ∧
    ((Storage.empty.put "aaaaaa" "https://a.example").put "aaaaaa" "https://b.example").get "aaaaaa" =
      ("https://b.example", true) := by
  decide

/-! ## Start-up state -/

theorem main_store (rd : Reader) (w : World) (hmain : main rd = some w) :
    w.store = Storage.empty.put "abc123" "https://example.com" := by
  unfold main runTests at hmain
  simp only at hmain
  split at hmain
  · exact Option.noConfusion hmain
  · split at hmain
    · exact Option.noConfusion hmain
    · split at hmain
      · exact Option.noConfusion hmain
      · simp only [Option.some.injEq] at hmain
        subst hmain
        rfl

/-- C4 (what the code does): `main` either stops the process in
`runTests` or starts serving with a table that is not empty, because `runTests` has stored
"abc123" -> "https://example.com" in the global store; with a random source whose draws
succeed the server does start, and a `RetrieveURL` for "abc123", a code that no create
request has returned, answers with a 302 redirect instead of 404. -/
theorem main_serves_test_entry :
    (∀ rd : Reader, main rd = none ∨
      ∃ pos, main rd = some ⟨Storage.empty.put "abc123" "https://example.com", pos⟩) ∧
    main (constReader 0) = some ⟨Storage.empty.put "abc123" "https://example.com", 6⟩ ∧
    Storage.empty.put "abc123" "https://example.com" ≠ Storage.empty ∧
    serve (constReader 0) 1 ⟨Storage.empty.put "abc123" "https://example.com", 6⟩
        [Request.retrieve "abc123"] =
      some ([Outcome.done (Response.redirect 302 "https://example.com")
          ⟨Storage.empty.put "abc123" "https://example.com", 6⟩],
        ⟨Storage.empty.put "abc123" "https://example.com", 6⟩) := by
  refine ⟨fun rd => ?_, by decide, by decide, by decide⟩
  cases hm : main rd with
  | none => exact Or.inl rfl
  | some w =>
    refine Or.inr ⟨w.pos, ?_⟩
    have := main_store rd w hm
    cases w with
    | mk st pos => simp only at this; rw [this]

/-! ## What the validation accepts -/

theorem getSchemeLoop_no_scheme (rawURL : List Char) (s : List Char) :
    ∀ (pre scheme rest : List Char), getSchemeLoop rawURL pre s = Except.ok (scheme, rest) →
      scheme.isEmpty = true → rest = rawURL := by
  induction s with
  | nil =>
    intro pre scheme rest h _
    simp only [getSchemeLoop, Except.ok.injEq, Prod.mk.injEq] at h
    exact h.2.symm
  | cons c cs ih =>
    intro pre scheme rest h hs
    simp only [getSchemeLoop] at h
    split at h
    · exact ih _ _ _ h hs
    · split at h
      · split at h
        · simp only [Except.ok.injEq, Prod.mk.injEq] at h
          exact h.2.symm
        · exact ih _ _ _ h hs
      · split at h
        · split at h
          · exact Except.noConfusion h
          · next hpre =>
            simp only [Except.ok.injEq, Prod.mk.injEq] at h
            rw [h.1] at hpre
            exact absurd hs hpre
        · simp only [Except.ok.injEq, Prod.mk.injEq] at h
          exact h.2.symm

theorem not_slash_dropLast (raw : List Char) (h : raw.head? ≠ some '/') :
    ['/'].isPrefixOf raw.dropLast = false := by
  cases raw with
  | nil => rfl
  | cons c cs =>
    have hc : ('/' == c) = false := by
      simp only [List.head?_cons, ne_eq, Option.some.injEq] at h
      simpa using fun hh => h hh.symm
    cases cs with
    | nil => rfl
    | cons d ds => simp [List.dropLast, List.isPrefixOf, hc]

theorem not_slash_cut (raw : List Char) (h : raw.head? ≠ some '/') :
    ['/'].isPrefixOf (cut raw '?').1 = false := by
  cases raw with
  | nil => rfl
  | cons c cs =>
    have hc : ('/' == c) = false := by
      simp only [List.head?_cons, ne_eq, Option.some.injEq] at h
      simpa using fun hh => h hh.symm
    simp only [cut, List.takeWhile_cons]
    split
    · simp [List.isPrefixOf, hc]
    · rfl

theorem parse_rejects (raw : List Char) (hscheme : ∀ scheme rest, getScheme raw = Except.ok (scheme, rest) →
      scheme.isEmpty = true) (hstar : raw ≠ ['*']) (hslash : raw.head? ≠ some '/') :
    parse raw true ≠ none := by
  unfold parse
  split
  · exact Option.noConfusion
  · split
    · exact Option.noConfusion
    · split
      · next hh => exact absurd (by simpa using hh) hstar
      · split
        · exact Option.noConfusion
        · next scheme rest0 hg =>
          have hs := hscheme scheme rest0 hg
          have hr : rest0 = raw := getSchemeLoop_no_scheme raw raw [] scheme rest0 hg hs
          subst hr
          have hpre : ['/'].isPrefixOf
              (if rest0.getLast? == some '?' && rest0.count '?' == 1 then rest0.dropLast
                else (cut rest0 '?').1) = false := by
            split
            · exact not_slash_dropLast rest0 hslash
            · exact not_slash_cut rest0 hslash
          simp only [hpre, hs, Bool.not_false, Bool.not_true, Bool.and_false, Bool.and_self,
            Bool.false_eq_true, if_false, if_true]
          exact Option.noConfusion

/-- C9, counterexample: "/foo" and "*" are not in absolute URI form (`getScheme` finds no
scheme), yet `url.ParseRequestURI` accepts both, and `ShortenURL` answers 200 and stores
"/foo" (and "*") as the target of the new code. -/
theorem relative_target_stored :
    hasScheme "/foo" = false ∧ ParseRequestURI "/foo" = none ∧
    ShortenURL (constReader 0) 1 ⟨Storage.empty, 0⟩ (some ⟨"/foo"⟩) =
      some (Outcome.done (Response.json 200 "short_url" "http://localhost:8080/aaaaaa")
        ⟨Storage.empty.put "aaaaaa" "/foo", 6⟩) ∧
    hasScheme "*" = false ∧ ParseRequestURI "*" = none ∧
    ShortenURL (constReader 0) 1 ⟨Storage.empty, 0⟩ (some ⟨"*"⟩) =
      some (Outcome.done (Response.json 200 "short_url" "http://localhost:8080/aaaaaa")
        ⟨Storage.empty.put "aaaaaa" "*", 6⟩) := by
  decide

/-- C9, amended: every target url that `ShortenURL` stores was accepted by
`url.ParseRequestURI` (a request that changes the table carries a url the validation
accepted and stores exactly that url); and a url that has no scheme, is not "*" and does
not begin with "/" is rejected by the validation: the request answers 400 and the state
is unchanged. -/
theorem stored_target_validated (rd : Reader) (fuel : Nat) (w : World) :
    (∀ (bind : Option RequestBody) (o : Outcome), ShortenURL rd fuel w bind = some o →
      o.world.store ≠ w.store →
      ∃ (req : RequestBody) (code : String), bind = some req ∧ ParseRequestURI req.URL = none ∧
        o.world.store = w.store.put code req.URL) ∧
    (∀ req : RequestBody, hasScheme req.URL = false → req.URL ≠ "*" →
      req.URL.data.head? ≠ some '/' →
      ShortenURL rd fuel w (some req) = some (Outcome.done (Response.json 400 "error" "Invalid URL") w)) := by
  refine ⟨fun bind o h hne => ?_, fun req hs hstar hslash => ?_⟩
  · rcases ShortenURL_cases rd fuel w bind o h with ⟨hsame, -⟩ | ⟨req, c, q, hb, hv, -, -, rfl⟩
    · exact absurd hsame hne
    · exact ⟨req, c, hb, hv, rfl⟩
  · have hrej : ParseRequestURI req.URL ≠ none := by
      apply parse_rejects _ _ _ hslash
      · intro scheme rest hg
        simp only [hasScheme, hg, Bool.not_eq_false'] at hs
        exact hs
      · intro hd
        exact hstar (String.ext hd)
    cases hp : ParseRequestURI req.URL with
    | none => exact absurd hp hrej
    | some e => simp [ShortenURL, hp]

theorem stored_target_validated_witness :
    ShortenURL (constReader 0) 1 ⟨Storage.empty, 0⟩ (some ⟨"example.com/page"⟩) =
      some (Outcome.done (Response.json 400 "error" "Invalid URL") ⟨Storage.empty, 0⟩) :=
  (stored_target_validated (constReader 0) 1 ⟨Storage.empty, 0⟩).2 ⟨"example.com/page"⟩
    (by decide) (by decide) (by decide)

end UrlShortener
